import Mathlib

/-!
Verification of the Poisson-based plasma simulation engine
(`app/services/compute_poisson_v1.py`) against its specification.

The embedding translates the source functions over exact arithmetic:
rational numbers `ℚ` where the code is purely algebraic, real numbers `ℝ`
where the code uses `sqrt`, `exp` or trigonometric phases.  Scalar
prefactors whose computation involves fractional powers of request fields
are abstracted as parameters constrained to the clamp ranges the source
imposes on them; each such parameter is noted at its definition site.
-/

namespace PoissonV1

/-- `_clamp(value, lo, hi) = max(lo, min(hi, value))` from the source. -/
def clampVal {α : Type} [LinearOrder α] (value lo hi : α) : α :=
  max lo (min hi value)

/-- The five fixed region variants of the grid legend. -/
inductive RegionType
  | plasma
  | solid_wall
  | powered_electrode
  | ground_electrode
  | dielectric
  deriving DecidableEq, Repr

/-- A tag mask mapping: tag name to an optional boolean cell mask
(`grid.tag_mask` in the source, `None` when the grid has no tag masks). -/
def TagMaskMap : Type := Option (String → Option (Nat → Nat → Bool))

/-- The validated grid: dimensions, the region type of each cell
(`region_legend[region_id[k][j]]`, total by the legend invariant), and the
optional tag-mask mapping. -/
structure GridModel where
  nz : Nat
  nr : Nat
  regionType : Nat → Nat → RegionType
  tagMask : TagMaskMap

/-! ## Poisson matrix assembly (`assemble_poisson_matrix`) -/

/-- `_harmonic(a, b)`: harmonic mean of face permittivities, zero when
either operand is non-positive. -/
def harmonic (a b : ℚ) : ℚ :=
  if a ≤ 0 ∨ b ≤ 0 then 0 else 2 * a * b / (a + b)

/-- 2D to 1D indexing `idx(k, j) = k * nr + j` from `assemble_poisson_matrix`. -/
def poissonIdx (nr k j : Nat) : Nat := k * nr + j

/-- One row of the assembled system together with its right-hand side
entry: a coefficient function over column indices, and the `b[i]` value. -/
def RowB : Type := (Nat → ℚ) × ℚ

/-- `add_neighbor(i, k, j, coef)` from `assemble_poisson_matrix`: a
Dirichlet neighbor moves `coef * value` to the right-hand side, otherwise
the off-diagonal entry `-coef` is added at the neighbor column; in both
cases `coef` is added on the diagonal `i`. -/
def addNeighborEntry (nr : Nat) (mask : Nat → Nat → Bool) (vals : Nat → Nat → ℚ)
    (i k j : Nat) (coef : ℚ) (acc : RowB) : RowB :=
  let acc1 : RowB :=
    if mask k j then
      (acc.1, acc.2 + coef * vals k j)
    else
      (fun m => if m = poissonIdx nr k j then acc.1 m - coef else acc.1 m, acc.2)
  (fun m => if m = i then acc1.1 m + coef else acc1.1 m, acc1.2)

/-- Row `i = idx(k, j)` of the assembled Poisson system and its `b[i]`.
Each source-loop iteration only writes to row `i` of the matrix and entry
`b[i]`, so the assembly decomposes exactly into independent rows.
A Dirichlet cell gets the identity row with `b[i]` set to the known value;
an interior cell accumulates east/west and north/south face contributions
with one-sided doubled coefficients at the domain edges. -/
def poissonRow (eps : Nat → Nat → ℚ) (dr dz : ℚ) (nz nr : Nat)
    (mask : Nat → Nat → Bool) (vals : Nat → Nat → ℚ) (k j : Nat) : RowB :=
  let i := poissonIdx nr k j
  if mask k j then
    (fun m => if m = i then 1 else 0, vals k j)
  else
    let acc0 : RowB := (fun _ => 0, 0)
    let accR : RowB :=
      if j = 0 then
        addNeighborEntry nr mask vals i k (j + 1)
          (2 * harmonic (eps k j) (eps k (j + 1)) / (dr * dr)) acc0
      else if j = nr - 1 then
        addNeighborEntry nr mask vals i k (j - 1)
          (2 * harmonic (eps k j) (eps k (j - 1)) / (dr * dr)) acc0
      else
        addNeighborEntry nr mask vals i k (j - 1)
          (harmonic (eps k j) (eps k (j - 1)) / (dr * dr))
          (addNeighborEntry nr mask vals i k (j + 1)
            (harmonic (eps k j) (eps k (j + 1)) / (dr * dr)) acc0)
    if k = 0 then
      addNeighborEntry nr mask vals i (k + 1) j
        (2 * harmonic (eps k j) (eps (k + 1) j) / (dz * dz)) accR
    else if k = nz - 1 then
      addNeighborEntry nr mask vals i (k - 1) j
        (2 * harmonic (eps k j) (eps (k - 1) j) / (dz * dz)) accR
    else
      addNeighborEntry nr mask vals i (k - 1) j
        (harmonic (eps k j) (eps (k - 1) j) / (dz * dz))
        (addNeighborEntry nr mask vals i (k + 1) j
          (harmonic (eps k j) (eps (k + 1) j) / (dz * dz)) accR)

theorem poissonRow_dirichlet (eps : Nat → Nat → ℚ) (dr dz : ℚ) (nz nr : Nat)
    (mask : Nat → Nat → Bool) (vals : Nat → Nat → ℚ) (k j : Nat)
    (h : mask k j = true) :
    (poissonRow eps dr dz nz nr mask vals k j).1 =
      (fun m => if m = poissonIdx nr k j then 1 else 0) ∧
    (poissonRow eps dr dz nz nr mask vals k j).2 = vals k j := by
  constructor <;> simp [poissonRow, h]

theorem poissonIdx_lt (nz nr k j : Nat) (hk : k < nz) (hj : j < nr) :
    poissonIdx nr k j < nz * nr := by
  have h1 : k * nr + j < k * nr + nr := by omega
  have h2 : k * nr + nr = (k + 1) * nr := by ring
  have h3 : (k + 1) * nr ≤ nz * nr := Nat.mul_le_mul_right nr hk
  simpa [poissonIdx] using lt_of_lt_of_le (h2 ▸ h1) h3

/-- C1: for every assembled Poisson system and every cell marked Dirichlet,
the row of `assemble_poisson_matrix` at that cell is an identity row with
the known value moved to the right-hand side, so any potential vector that
exactly satisfies the assembled linear system (as `solve_phi` computes)
equals the assigned Dirichlet boundary value at that cell, in particular
within the 1e-4 tolerance. -/
theorem C1_dirichlet_cells_reproduce_boundary_value
    (eps : Nat → Nat → ℚ) (dr dz : ℚ) (nz nr : Nat)
    (mask : Nat → Nat → Bool) (vals : Nat → Nat → ℚ)
    (x : Nat → ℚ) (k j : Nat) (hk : k < nz) (hj : j < nr)
    (hdir : mask k j = true)
    (hsol : ∑ m in Finset.range (nz * nr),
        (poissonRow eps dr dz nz nr mask vals k j).1 m * x m =
        (poissonRow eps dr dz nz nr mask vals k j).2) :
    x (poissonIdx nr k j) = vals k j ∧
    |x (poissonIdx nr k j) - vals k j| ≤ 1 / 10000 := by
  obtain ⟨hrow, hb⟩ := poissonRow_dirichlet eps dr dz nz nr mask vals k j hdir
  rw [hrow, hb] at hsol
  have hmem : poissonIdx nr k j ∈ Finset.range (nz * nr) :=
    Finset.mem_range.mpr (poissonIdx_lt nz nr k j hk hj)
  have hsum : ∑ m in Finset.range (nz * nr),
      (if m = poissonIdx nr k j then (1 : ℚ) else 0) * x m =
      x (poissonIdx nr k j) := by
    rw [Finset.sum_congr rfl (fun m _ => by rw [ite_mul, one_mul, zero_mul])]
    rw [Finset.sum_ite_eq' (Finset.range (nz * nr)) (poissonIdx nr k j) x]
    simp [hmem]
  rw [hsum] at hsol
  refine ⟨hsol, ?_⟩
  rw [hsol]
  simp

/-- Witness for C1 at a concrete 1x1 grid with a Dirichlet cell of value 5. -/
theorem C1_dirichlet_cells_reproduce_boundary_value_witness :
    (5 : ℚ) = 5 ∧ |(5 : ℚ) - 5| ≤ 1 / 10000 :=
  C1_dirichlet_cells_reproduce_boundary_value
    (fun _ _ => 1) 1 1 1 1 (fun _ _ => true) (fun _ _ => 5) (fun _ => 5) 0 0
    (by decide) (by decide) rfl
    (by simp [poissonRow, poissonIdx])

/-! ## Influence-map engine (`_spread_outlet_influence`) -/

/-- The update threshold `1e-9` used by `_spread_outlet_influence`. -/
def spreadTol : ℚ := mkRat 1 1000000000

/-- Bounds-checked cell read `grid[k][j]`; grids are rectangular by
construction in the source, so the default only covers out-of-range reads
that the source guards away. -/
def get2 (grid : List (List ℚ)) (k j : Nat) : ℚ :=
  (grid.getD k []).getD j 0

/-- `max(north, south, west, east)` of the previous-iteration values, with
missing neighbors at the domain edge treated as `0.0` as in the source. -/
def neighborMax (inf : List (List ℚ)) (nz nr k j : Nat) : ℚ :=
  let north := if 0 < k then get2 inf (k - 1) j else 0
  let south := if k + 1 < nz then get2 inf (k + 1) j else 0
  let west := if 0 < j then get2 inf k (j - 1) else 0
  let east := if j + 1 < nr then get2 inf k (j + 1) else 0
  max (max (max north south) west) east

/-- One relaxation step of `_spread_outlet_influence`.  The source writes
into a fresh copy `updated` of the previous grid and each cell is written
at most once, reading only previous-iteration values, so the step is the
pointwise map below; `changed` records whether any cell was raised. -/
def spreadStep (inf : List (List ℚ)) (decay : ℚ) : List (List ℚ) × Bool :=
  let nz := inf.length
  let nr := (inf.headD []).length
  ((List.range nz).map fun k =>
    (List.range nr).map fun j =>
      let propagated := neighborMax inf nz nr k j * decay
      if get2 inf k j + spreadTol < propagated then propagated else get2 inf k j,
   (List.range nz).any fun k =>
    (List.range nr).any fun j =>
      get2 inf k j + spreadTol < neighborMax inf nz nr k j * decay)

/-- The bounded iteration of `_spread_outlet_influence`: run at most the
given number of steps, stopping early as soon as a step changes no cell. -/
def spreadLoopAux (decay : ℚ) : Nat → List (List ℚ) → List (List ℚ)
  | 0, inf => inf
  | n + 1, inf =>
    let step := spreadStep inf decay
    if step.2 then spreadLoopAux decay n step.1 else step.1

/-- `_spread_outlet_influence(source_map, steps, decay)`: returns the seed
map unchanged when it is empty, its first row is empty, or `steps <= 0`. -/
def spreadOutletInfluence (sourceMap : List (List ℚ)) (steps : Nat) (decay : ℚ) :
    List (List ℚ) :=
  if sourceMap = [] ∨ sourceMap.headD [] = [] ∨ steps = 0 then sourceMap
  else spreadLoopAux decay steps sourceMap

/-- Cell read of a grid built as a row map over `List.range`. -/
theorem get2_map_range (f : Nat → Nat → ℚ) (nz nr k j : Nat)
    (hk : k < nz) (hj : j < nr) :
    get2 ((List.range nz).map fun a => (List.range nr).map fun b => f a b) k j =
      f k j := by
  simp [get2, List.getD_eq_getElem?_getD, List.getElem?_map,
    List.getElem?_range, hk, hj]

set_option maxHeartbeats 2000000 in
/-- One concrete relaxation step on the seed map `[[10, 1/2]]` with decay
`9/10`: the weaker seed is overwritten by its stronger neighbor. -/
theorem spreadStep_two_seeds :
    spreadStep [[10, mkRat 1 2]] (mkRat 9 10) = ([[10, 9]], true) := by
  norm_num [spreadStep, neighborMax, get2, spreadTol, List.range_succ]

set_option maxHeartbeats 2000000 in
/-- One concrete relaxation step on the constant grid `[[1, 1]]` with
decay `9/10`: no cell changes. -/
theorem spreadStep_fixed_point :
    spreadStep [[(1 : ℚ), 1]] (mkRat 9 10) = ([[(1 : ℚ), 1]], false) := by
  norm_num [spreadStep, neighborMax, get2, spreadTol, List.range_succ]

/-- C9 counterexample: the relaxation step does not leave seeded cells at
their seeded value.  In the non-negative seed map `[[10, 1/2]]` both cells
are seeded (strictly positive weights, e.g. two outlet tags of different
strengths); after one step with decay `9/10 ∈ (0, 1]` the weaker seed at
`(0, 1)` is raised to `10 * 9/10 = 9` instead of being kept at its seeded
value `1/2` as the claim states. -/
theorem C9_seeded_cell_counterexample :
    spreadOutletInfluence [[10, mkRat 1 2]] 1 (mkRat 9 10) = [[10, 9]] ∧
    get2 [[(10 : ℚ), mkRat 1 2]] 0 1 > 0 ∧
    get2 (spreadOutletInfluence [[10, mkRat 1 2]] 1 (mkRat 9 10)) 0 1 ≠
      get2 [[(10 : ℚ), mkRat 1 2]] 0 1 := by
  have h : spreadLoopAux (mkRat 9 10) 1 [[10, mkRat 1 2]] = [[10, 9]] := by
    rw [spreadLoopAux]
    simp only [spreadStep_two_seeds, if_true]
    rw [spreadLoopAux]
  have h2 : spreadOutletInfluence [[10, mkRat 1 2]] 1 (mkRat 9 10) = [[10, 9]] := by
    rw [spreadOutletInfluence, if_neg (by simp), h]
  refine ⟨h2, by norm_num [get2], ?_⟩
  rw [h2]
  norm_num [get2]

/-- C9 amended: each relaxation step sets every cell's value (seeded cells
included) to `max(neighbor values) * decay` whenever that exceeds the
cell's current value by more than `1e-9`, and otherwise leaves the cell
unchanged; once a step changes no cell, any remaining iteration budget is
abandoned and that step's grid is returned. -/
theorem C9_step_rule_and_early_stop (inf : List (List ℚ)) (decay : ℚ)
    (k j n : Nat) (hk : k < inf.length) (hj : j < (inf.headD []).length) :
    get2 (spreadStep inf decay).1 k j =
      (if get2 inf k j + spreadTol <
          neighborMax inf inf.length (inf.headD []).length k j * decay
       then neighborMax inf inf.length (inf.headD []).length k j * decay
       else get2 inf k j) ∧
    ((spreadStep inf decay).2 = false →
      spreadLoopAux decay (n + 1) inf = (spreadStep inf decay).1) := by
  constructor
  · exact get2_map_range
      (fun a b => if get2 inf a b + spreadTol <
          neighborMax inf inf.length (inf.headD []).length a b * decay
        then neighborMax inf inf.length (inf.headD []).length a b * decay
        else get2 inf a b) inf.length (inf.headD []).length k j hk hj
  · intro hstop
    simp [spreadLoopAux, hstop]

/-- Witness for C9 at the fixed-point grid `[[1, 1]]`: the step rule holds
at cell `(0, 1)` and, the step changing no cell, the loop with four steps
of budget stops immediately. -/
theorem C9_step_rule_and_early_stop_witness :
    get2 (spreadStep [[(1 : ℚ), 1]] (mkRat 9 10)).1 0 1 =
      (if get2 [[(1 : ℚ), 1]] 0 1 + spreadTol <
          neighborMax [[(1 : ℚ), 1]] 1 2 0 1 * mkRat 9 10
       then neighborMax [[(1 : ℚ), 1]] 1 2 0 1 * mkRat 9 10
       else get2 [[(1 : ℚ), 1]] 0 1) ∧
    spreadLoopAux (mkRat 9 10) 4 [[(1 : ℚ), 1]] =
      (spreadStep [[(1 : ℚ), 1]] (mkRat 9 10)).1 :=
  ⟨(C9_step_rule_and_early_stop [[(1 : ℚ), 1]] (mkRat 9 10) 0 1 3
      (by decide) (by decide)).1,
   (C9_step_rule_and_early_stop [[(1 : ℚ), 1]] (mkRat 9 10) 0 1 3
      (by decide) (by decide)).2
      (by simp [spreadStep_fixed_point])⟩

/-! ## Geometry/material preparation (`build_epsilon_map`, `build_wall_loss_map`)

Tag names are modelled as already-stripped strings (the source compares
`override.target_tag` against the keys of `grid.tag_mask` directly). -/

/-- One entry of `request.material.regions`: a target tag with optional
permittivity and wall-loss overrides. -/
structure MaterialOverride where
  targetTag : String
  epsilonR : Option ℚ
  wallLossE : Option ℚ

/-- Cell `(k, j)` of `build_epsilon_map`: `1.0` except `dielectric` region
cells, which take the default permittivity; then every override with a
permittivity value and a present tag mask overwrites each masked cell, in
declaration order, regardless of the cell's region type.  An override
whose target tag is absent from `grid.tag_mask` is skipped (`continue`)
without any warning; when `grid.tag_mask` is `None` no override runs. -/
def epsAt (g : GridModel) (defaultEps : ℚ) (overrides : List MaterialOverride)
    (k j : Nat) : ℚ :=
  let base := if g.regionType k j = RegionType.dielectric then defaultEps else 1
  match g.tagMask with
  | none => base
  | some masks =>
    overrides.foldl (fun acc ov =>
      match ov.epsilonR with
      | none => acc
      | some e =>
        match masks ov.targetTag with
        | none => acc
        | some m => if m k j then e else acc) base

/-- Cell `(k, j)` of `build_wall_loss_map`: the clamped default wall loss
everywhere, then overrides with a wall-loss value applied per masked cell
in declaration order; absent target tags are skipped without warning. -/
def wallLossAt (g : GridModel) (defaultLoss : ℚ)
    (overrides : List MaterialOverride) (k j : Nat) : ℚ :=
  let base := clampVal defaultLoss 0 1
  match g.tagMask with
  | none => base
  | some masks =>
    overrides.foldl (fun acc ov =>
      match ov.wallLossE with
      | none => acc
      | some l =>
        match masks ov.targetTag with
        | none => acc
        | some m => if m k j then clampVal l 0 1 else acc) base

/-- `build_epsilon_map` paired with the warnings it emits.  The source
function has no warning channel at all (compare `_build_inlet_source_map`
and `_build_outlet_strength_map`, which do append to a warnings list), so
the emitted warning list is always empty. -/
def buildEpsilonMapW (g : GridModel) (defaultEps : ℚ)
    (overrides : List MaterialOverride) : (Nat → Nat → ℚ) × List String :=
  (fun k j => epsAt g defaultEps overrides k j, [])

/-- `build_wall_loss_map` paired with the warnings it emits; as with
`build_epsilon_map` the source has no warning channel. -/
def buildWallLossMapW (g : GridModel) (defaultLoss : ℚ)
    (overrides : List MaterialOverride) : (Nat → Nat → ℚ) × List String :=
  (fun k j => wallLossAt g defaultLoss overrides k j, [])

/-- Whether some permittivity override applies at cell `(k, j)`. -/
def epsOverrideApplies (g : GridModel) (overrides : List MaterialOverride)
    (k j : Nat) : Bool :=
  match g.tagMask with
  | none => false
  | some masks =>
    overrides.any fun ov =>
      match ov.epsilonR with
      | none => false
      | some _ =>
        match masks ov.targetTag with
        | none => false
        | some m => m k j

theorem foldl_fixed {α β : Type} (f : α → β → α) (l : List β) (base : α)
    (h : ∀ x ∈ l, ∀ acc, f acc x = acc) : l.foldl f base = base := by
  induction l generalizing base with
  | nil => rfl
  | cons x xs ih =>
    rw [List.foldl_cons, h x (by simp)]
    exact ih base (fun y hy acc => h y (List.mem_cons_of_mem x hy) acc)

theorem epsAt_no_override (g : GridModel) (defaultEps : ℚ)
    (overrides : List MaterialOverride) (k j : Nat)
    (h : epsOverrideApplies g overrides k j = false) :
    epsAt g defaultEps overrides k j =
      (if g.regionType k j = RegionType.dielectric then defaultEps else 1) := by
  unfold epsAt epsOverrideApplies at *
  cases hm : g.tagMask with
  | none => simp [hm]
  | some masks =>
    rw [hm] at h
    simp only [hm]
    refine foldl_fixed _ overrides _ (fun ov hov acc => ?_)
    rw [List.any_eq_false] at h
    have hov' := h ov hov
    cases he : ov.epsilonR with
    | none => simp only [he]
    | some e =>
      cases hmk : masks ov.targetTag with
      | none => simp only [he, hmk]
      | some m =>
        simp only [he, hmk, Bool.not_eq_true] at hov'
        simp only [he, hmk, hov', Bool.false_eq_true, if_false]

/-- A 1x1 all-plasma grid with a tag mask holding one tag `ov` that covers
the single cell. -/
def overrideTagGrid : GridModel :=
  ⟨1, 1, fun _ _ => RegionType.plasma,
   some fun t => if t = "ov" then some fun _ _ => true else none⟩

/-- A material override assigning permittivity 5 to tag `ov`. -/
def plasmaOverride : List MaterialOverride := [⟨"ov", some 5, none⟩]

/-- A 1x1 all-plasma grid whose tag mask only knows the tag `present`. -/
def missTagGrid : GridModel :=
  ⟨1, 1, fun _ _ => RegionType.plasma,
   some fun t => if t = "present" then some fun _ _ => true else none⟩

/-- A material override referencing the absent tag `missing`. -/
def missOverride : List MaterialOverride := [⟨"missing", some 7, some (mkRat 1 2)⟩]

/-- A 1x1 all-plasma grid without tag masks. -/
def plasmaOnlyGrid : GridModel := ⟨1, 1, fun _ _ => RegionType.plasma, none⟩

/-- C5 counterexample: `build_epsilon_map` does not return 1.0 at every
non-dielectric cell.  A permittivity override whose tag mask covers a
plasma cell overwrites that cell with the override value (the override
loop never checks the region type): on a 1x1 plasma grid with override
permittivity 5 on a covering tag, the map value is 5, not 1. -/
theorem C5_override_hits_plasma_cell_counterexample :
    overrideTagGrid.regionType 0 0 = RegionType.plasma ∧
    epsAt overrideTagGrid 4 plasmaOverride 0 0 = 5 ∧
    epsAt overrideTagGrid 4 plasmaOverride 0 0 ≠ 1 := by
  refine ⟨rfl, ?_, ?_⟩ <;> norm_num [epsAt, overrideTagGrid, plasmaOverride]

/-- C5 amended: `build_epsilon_map` returns 1.0 at every non-dielectric
cell not covered by any applicable permittivity-override mask, and the
default permittivity at every such uncovered dielectric cell; a cell
covered by an override mask takes the override value regardless of its
region type. -/
theorem C5_epsilon_map_region_values (g : GridModel) (defaultEps : ℚ)
    (overrides : List MaterialOverride) (k j : Nat)
    (h : epsOverrideApplies g overrides k j = false) :
    (g.regionType k j ≠ RegionType.dielectric →
      epsAt g defaultEps overrides k j = 1) ∧
    (g.regionType k j = RegionType.dielectric →
      epsAt g defaultEps overrides k j = defaultEps) := by
  constructor <;> intro hr <;>
    rw [epsAt_no_override g defaultEps overrides k j h] <;> simp [hr]

/-- Witness for C5 on a 1x1 plasma grid without overrides. -/
theorem C5_epsilon_map_region_values_witness :
    epsAt plasmaOnlyGrid 4 [] 0 0 = 1 :=
  (C5_epsilon_map_region_values plasmaOnlyGrid 4 [] 0 0 rfl).1 (by decide)

/-- C6 counterexample: a material override whose target tag is absent from
`grid.tag_mask` is skipped (fallback: the cell keeps its un-overridden
value, no failure), but no warning recording the missing tag is emitted:
the warning component of both material-map builders is empty, against the
claim that a warning is always recorded. -/
theorem C6_missing_tag_no_warning_counterexample :
    (buildEpsilonMapW missTagGrid 4 missOverride).2 = [] ∧
    (buildWallLossMapW missTagGrid (mkRat 1 5) missOverride).2 = [] ∧
    (buildEpsilonMapW missTagGrid 4 missOverride).1 0 0 = 1 := by
  refine ⟨rfl, rfl, ?_⟩
  norm_num [buildEpsilonMapW, epsAt, missTagGrid, missOverride]
  decide

/-- C6 amended: an override whose target tag is absent from the tag-mask
mapping degrades to the documented fallback, never a hard failure: both
material maps are exactly those computed without that override, at every
cell; but, unlike missing inlet or outlet tags, no warning is emitted (the
material-map builders have no warning channel, so the warning list is
empty). -/
theorem C6_missing_override_tag_skipped (g : GridModel)
    (masks : String → Option (Nat → Nat → Bool)) (defaultEps defaultLoss : ℚ)
    (ov : MaterialOverride) (rest : List MaterialOverride) (k j : Nat)
    (hm : g.tagMask = some masks) (hmiss : masks ov.targetTag = none) :
    epsAt g defaultEps (ov :: rest) k j = epsAt g defaultEps rest k j ∧
    wallLossAt g defaultLoss (ov :: rest) k j = wallLossAt g defaultLoss rest k j ∧
    (buildEpsilonMapW g defaultEps (ov :: rest)).2 = [] ∧
    (buildWallLossMapW g defaultLoss (ov :: rest)).2 = [] := by
  refine ⟨?_, ?_, rfl, rfl⟩
  · unfold epsAt
    simp only [hm, List.foldl_cons]
    cases he : ov.epsilonR with
    | none => simp only [he]
    | some e => simp only [he, hmiss]
  · unfold wallLossAt
    simp only [hm, List.foldl_cons]
    cases hw : ov.wallLossE with
    | none => simp only [hw]
    | some l => simp only [hw, hmiss]

/-- Witness for C6 on the 1x1 grid whose tag mask lacks the overridden tag. -/
theorem C6_missing_override_tag_skipped_witness :
    epsAt missTagGrid 4 missOverride 0 0 = epsAt missTagGrid 4 [] 0 0 ∧
    wallLossAt missTagGrid (mkRat 1 5) missOverride 0 0 =
      wallLossAt missTagGrid (mkRat 1 5) [] 0 0 ∧
    (buildEpsilonMapW missTagGrid 4 missOverride).2 = [] ∧
    (buildWallLossMapW missTagGrid (mkRat 1 5) missOverride).2 = [] :=
  C6_missing_override_tag_skipped missTagGrid
    (fun t => if t = "present" then some fun _ _ => true else none)
    4 (mkRat 1 5) ⟨"missing", some 7, some (mkRat 1 2)⟩ [] 0 0 rfl (by simp)

/-! ## Density observable mapping (`_to_density_observable`) and the
returned `ne` field (`run_simulation_poisson_v1`)

The three scalar gains and the saturation constant of
`_to_density_observable` are computed from request fields through
fractional powers and then clamped: `rf_nonlin_gain = _clamp(.., 0.45,
4.2)`, `gas_reactivity_gain = _clamp(.., 0.65, 1.75)`, `pump_damping =
_clamp(.., 0.45, 1.0)`, `n_sat = _clamp(.., 0.03, 0.55)`.  They are
per-request constants, so the per-cell map is embedded with them as
parameters constrained to those clamp ranges. -/

/-- Per-cell map of `_to_density_observable`: non-finite or non-positive
raw values map to `0.0` (exact rationals are always finite); a positive
raw value is scaled by the three gains and passed through the saturating
transfer curve `x / (x + n_sat)`, clamped to `[0, 1]`. -/
def toDensityCell (rfNonlinGain gasReactivityGain pumpDamping nSat value : ℚ) : ℚ :=
  if value ≤ 0 then 0
  else
    let valueEff := value * rfNonlinGain * gasReactivityGain * pumpDamping
    clampVal (valueEff / (valueEff + nSat)) 0 1

/-- The `ne` grid cell returned by `run_simulation_poisson_v1`: the solver
output at plasma cells, `0.0` at every non-plasma cell. -/
def neReturnedCell (isPlasma : Bool) (solvedValue : ℚ) : ℚ :=
  if isPlasma then solvedValue else 0

/-- C2 counterexample: the returned normalized density grid is not
bounded below by a strictly positive floor.  At any non-plasma cell the
orchestrator stores `0.0` outright, so with a solver value that maps to a
positive density the returned cell is still exactly zero. -/
theorem C2_nonplasma_cell_zero_counterexample :
    neReturnedCell false (toDensityCell 1 1 1 (mkRat 3 100) 1) = 0 ∧
    ¬ 0 < neReturnedCell false (toDensityCell 1 1 1 (mkRat 3 100) 1) := by
  refine ⟨rfl, ?_⟩
  rw [neReturnedCell]
  simp

/-- C2 amended: the raw solved density is floor-clamped to the strictly
positive constant `N_FLOOR = 1e-8` before mapping, and the per-cell
observable map sends every strictly positive raw value to a strictly
positive normalized value of at most 1 (the gains and the saturation
constant are clamped to strictly positive ranges); but non-plasma cells
of the returned grid are exactly `0.0`. -/
theorem C2_density_floor_only_on_plasma_cells
    (rfNonlinGain gasReactivityGain pumpDamping nSat value : ℚ)
    (hrf : mkRat 45 100 ≤ rfNonlinGain) (hgas : mkRat 65 100 ≤ gasReactivityGain)
    (hpump : mkRat 45 100 ≤ pumpDamping) (hsat : mkRat 3 100 ≤ nSat)
    (hval : 0 < value) :
    0 < toDensityCell rfNonlinGain gasReactivityGain pumpDamping nSat value ∧
    toDensityCell rfNonlinGain gasReactivityGain pumpDamping nSat value ≤ 1 ∧
    neReturnedCell true
      (toDensityCell rfNonlinGain gasReactivityGain pumpDamping nSat value) =
      toDensityCell rfNonlinGain gasReactivityGain pumpDamping nSat value ∧
    neReturnedCell false
      (toDensityCell rfNonlinGain gasReactivityGain pumpDamping nSat value) = 0 := by
  have hrf' : (0 : ℚ) < rfNonlinGain := lt_of_lt_of_le (by norm_num) hrf
  have hgas' : (0 : ℚ) < gasReactivityGain := lt_of_lt_of_le (by norm_num) hgas
  have hpump' : (0 : ℚ) < pumpDamping := lt_of_lt_of_le (by norm_num) hpump
  have hsat' : (0 : ℚ) < nSat := lt_of_lt_of_le (by norm_num) hsat
  have heff : 0 < value * rfNonlinGain * gasReactivityGain * pumpDamping := by
    positivity
  have hq : 0 < value * rfNonlinGain * gasReactivityGain * pumpDamping /
      (value * rfNonlinGain * gasReactivityGain * pumpDamping + nSat) :=
    div_pos heff (by linarith)
  have hnotle : ¬ value ≤ 0 := not_le.mpr hval
  constructor
  · rw [toDensityCell]
    simp only [hnotle, if_false, clampVal]
    rw [lt_max_iff]
    right
    rw [lt_min_iff]
    refine ⟨by norm_num, hq⟩
  refine ⟨?_, rfl, rfl⟩
  rw [toDensityCell]
  simp only [hnotle, if_false, clampVal]
  rw [max_le_iff]
  exact ⟨by norm_num, min_le_left 1 _⟩

/-- Witness for C2 at gains 1, saturation 3/100 and raw value 1. -/
theorem C2_density_floor_only_on_plasma_cells_witness :
    0 < toDensityCell 1 1 1 (mkRat 3 100) 1 ∧
    toDensityCell 1 1 1 (mkRat 3 100) 1 ≤ 1 ∧
    neReturnedCell true (toDensityCell 1 1 1 (mkRat 3 100) 1) =
      toDensityCell 1 1 1 (mkRat 3 100) 1 ∧
    neReturnedCell false (toDensityCell 1 1 1 (mkRat 3 100) 1) = 0 :=
  C2_density_floor_only_on_plasma_cells 1 1 1 (mkRat 3 100) 1
    (by norm_num [mkRat, Rat.normalize]) (by norm_num [mkRat, Rat.normalize])
    (by norm_num [mkRat, Rat.normalize]) (by norm_num) (by norm_num)

/-! ## Solver outcome and metadata of `solve_ne_drift_diffusion_sg`

The numeric solves are performed by external routines (`scipy spsolve`,
damped Gauss-Seidel); the control flow deciding which density is returned
and what metadata reports is embedded with the outcomes of those routines
as parameters: whether `scipy` is available, whether the direct solve
returned an all-finite solution, and whether Gauss-Seidel converged
together with the warnings it produced. -/

/-- Which density field the solver returns: the direct sparse solution,
the Gauss-Seidel solution, or the closed-form potential-derived proxy. -/
inductive NeDensitySource
  | direct
  | gaussSeidel
  | proxy
  deriving DecidableEq, Repr

/-- The metadata fields of `NeSolverMetadata` that the claim concerns. -/
structure NeMetaFlags where
  converged : Bool
  fallbackUsed : Bool
  warnings : List String

/-- The warning appended when the direct sparse solve raises:
`f"spsolve failed: {exc}; using GS"`. -/
def spsolveFailMsg (excMsg : String) : String :=
  "spsolve failed: " ++ excMsg ++ "; using GS"

/-- Control flow of `solve_ne_drift_diffusion_sg` after assembly (lines
1680-1700 and 1988-2049): a non-positive diffusion coefficient returns
the proxy immediately with `fallback_used=True` and a warning; otherwise
the direct solve is attempted when `scipy` is present, falling back to
Gauss-Seidel on failure (or when `scipy` is absent), and finally to the
proxy when the chosen iterative solve did not converge. -/
def solveNeOutcome (dE : ℚ) (preWarnings : List String)
    (spAvailable directOk : Bool) (excMsg : String)
    (gsConverged : Bool) (gsWarnings : List String) :
    NeDensitySource × NeMetaFlags :=
  if dE ≤ 0 then
    (NeDensitySource.proxy,
     ⟨false, true, preWarnings ++ ["D_e must be positive; using proxy ne"]⟩)
  else
    let afterSolve : Bool × List String × NeDensitySource :=
      if spAvailable then
        if directOk then (true, preWarnings, NeDensitySource.direct)
        else
          (gsConverged,
           preWarnings ++ [spsolveFailMsg excMsg] ++ gsWarnings,
           NeDensitySource.gaussSeidel)
      else (gsConverged, preWarnings ++ gsWarnings, NeDensitySource.gaussSeidel)
    if afterSolve.1 then
      (afterSolve.2.2, ⟨true, false, afterSolve.2.1⟩)
    else
      (NeDensitySource.proxy,
       ⟨false, true,
        afterSolve.2.1 ++ ["drift-diffusion did not converge; using proxy ne"]⟩)

/-- C3: whenever `solve_ne_drift_diffusion_sg` returns the closed-form
potential-derived proxy density instead of the assembled solve (the
diffusion coefficient is non-positive, or neither the direct solve nor
Gauss-Seidel converged), the reported metadata has `fallback_used = true`
and a non-empty warning list. -/
theorem C3_proxy_fallback_always_reported (dE : ℚ) (preWarnings : List String)
    (spAvailable directOk : Bool) (excMsg : String)
    (gsConverged : Bool) (gsWarnings : List String)
    (h : (solveNeOutcome dE preWarnings spAvailable directOk excMsg
            gsConverged gsWarnings).1 = NeDensitySource.proxy) :
    (solveNeOutcome dE preWarnings spAvailable directOk excMsg
        gsConverged gsWarnings).2.fallbackUsed = true ∧
    (solveNeOutcome dE preWarnings spAvailable directOk excMsg
        gsConverged gsWarnings).2.warnings ≠ [] := by
  unfold solveNeOutcome at *
  by_cases hd : dE ≤ 0
  · simp only [hd, if_true]
    simp
  · simp only [hd, if_false] at h ⊢
    by_cases hsp : spAvailable <;> by_cases hdir : directOk <;>
      by_cases hgs : gsConverged <;>
      simp_all

/-- Witness for C3 with a non-positive diffusion coefficient. -/
theorem C3_proxy_fallback_always_reported_witness :
    (solveNeOutcome 0 [] true true "exc" true []).2.fallbackUsed = true ∧
    (solveNeOutcome 0 [] true true "exc" true []).2.warnings ≠ [] :=
  C3_proxy_fallback_always_reported 0 [] true true "exc" true [] (by rfl)

/-! ## Boundary condition builder (`build_dirichlet_mask_values`)

RF phases enter only through their cosine and sine; a source is embedded
as its power together with `(cos phase, sin phase)` subject to
`cos^2 + sin^2 = 1`.  Powers are the already-floored `max(rf_power_W, 0)`
of `_collect_rf_drive_sources`.  `math.hypot(a, b)` is `sqrt(a^2 + b^2)`
and `x ** 0.5` on a non-negative operand is `sqrt x`. -/

/-- One RF drive source as used by `_build_boundary_drive_components`. -/
structure SourceModel where
  surfaceTag : Option String
  powerW : ℝ
  cosPhase : ℝ
  sinPhase : ℝ

/-- One normalized phasor component (`BoundaryDriveComponent`). -/
structure BoundaryComponent where
  surfaceTag : Option String
  re : ℝ
  im : ℝ

/-- `_build_boundary_drive_components`: amplitudes are square roots of
per-source power normalized by the total power; with non-positive total
power each source gets the uniform amplitude `1 / len(sources)`. -/
noncomputable def buildBoundaryDriveComponents (sources : List SourceModel) :
    List BoundaryComponent :=
  if sources.isEmpty then []
  else
    let totalPower := (sources.map (fun s => s.powerW)).sum
    if 0 < totalPower then
      sources.map fun s =>
        let amp := if 0 < s.powerW then Real.sqrt s.powerW / Real.sqrt totalPower
                   else 0
        ⟨s.surfaceTag, amp * s.cosPhase, amp * s.sinPhase⟩
    else
      sources.map fun s =>
        ⟨s.surfaceTag, (1 / (sources.length : ℝ)) * s.cosPhase,
         (1 / (sources.length : ℝ)) * s.sinPhase⟩

/-- `_cell_matches_source_tag`: an untagged source matches every cell; a
tagged source matches only cells covered by its tag mask, and matches
nothing when the mask mapping or the tag is absent. -/
def cellMatchesSourceTag (tm : TagMaskMap) (k j : Nat) :
    Option String → Bool
  | none => true
  | some t =>
    match tm with
    | none => false
    | some masks =>
      match masks t with
      | none => false
      | some m => m k j

/-- The drive magnitude assigned to a powered-electrode cell before
rescaling: the magnitude of the summed phasor components of the matched
sources, with the source fallbacks (untagged components when a tagged
request matches nothing, else all components); `powered_voltage` itself
when there are no components at all. -/
noncomputable def poweredCellDrive (g : GridModel)
    (comps : List BoundaryComponent) (pv : ℝ) (k j : Nat) : ℝ :=
  let matched := comps.filter fun c => cellMatchesSourceTag g.tagMask k j c.surfaceTag
  let anyTagged := comps.any fun c => c.surfaceTag.isSome
  let untagged := comps.filter fun c => c.surfaceTag.isNone
  let matched2 := if !matched.isEmpty then matched
                  else if anyTagged && !untagged.isEmpty then untagged
                  else comps
  if matched2.isEmpty then pv
  else Real.sqrt (((matched2.map fun c => c.re).sum) ^ 2 +
    ((matched2.map fun c => c.im).sum) ^ 2)

/-- The powered-electrode cells in the row-major order the source visits
them. -/
def poweredCells (g : GridModel) : List (Nat × Nat) :=
  (List.range g.nz).flatMap fun k =>
    (List.range g.nr).filterMap fun j =>
      if g.regionType k j = RegionType.powered_electrode then some (k, j) else none

/-- `max_drive = max(values[k][j] for k, j in powered_cells)`; the source
only reads it when the powered-cell list is non-empty, so the `0` of the
empty case is never used. -/
noncomputable def maxDriveVal (g : GridModel) (comps : List BoundaryComponent)
    (pv : ℝ) : ℝ :=
  match (poweredCells g).map (fun c => poweredCellDrive g comps pv c.1 c.2) with
  | [] => 0
  | h :: t => t.foldl max h

/-- `local_region_offset(k, j)`: the summed DC-bias-region offsets of all
tags whose masks cover the cell; zero without tag masks. -/
def localRegionOffset (g : GridModel) (dcRegionOffsets : List (String × ℝ))
    (k j : Nat) : ℝ :=
  match g.tagMask with
  | none => 0
  | some masks =>
    (dcRegionOffsets.map fun tagOff =>
      match masks tagOff.1 with
      | none => 0
      | some m => if m k j then tagOff.2 else 0).sum

/-- The Dirichlet value `build_dirichlet_mask_values` assigns to a cell:
powered-electrode cells get the rescaled drive plus the global DC offset
plus the local DC-bias-region offset; ground/wall cells get only the
local offset; other cells are not Dirichlet (value `0.0`). -/
noncomputable def dirichletValue (g : GridModel) (comps : List BoundaryComponent)
    (pv dcOffset : ℝ) (dcRegionOffsets : List (String × ℝ)) (k j : Nat) : ℝ :=
  match g.regionType k j with
  | RegionType.powered_electrode =>
    let raw := poweredCellDrive g comps pv k j
    let md := maxDriveVal g comps pv
    if 0 < md then
      raw * (pv / md) + dcOffset + localRegionOffset g dcRegionOffsets k j
    else dcOffset + localRegionOffset g dcRegionOffsets k j
  | RegionType.ground_electrode => localRegionOffset g dcRegionOffsets k j
  | RegionType.solid_wall => localRegionOffset g dcRegionOffsets k j
  | _ => 0

/-- `_bias_voltage_to_offset`: clamp the DC bias voltage to +-5000 V,
return zero below the 1e-9 threshold, otherwise normalize by 500 V with a
1.12 polarity gain for negative bias, clamped to +-3.2. -/
noncomputable def biasVoltageToOffset (v : ℝ) : ℝ :=
  let clamped := clampVal v (-5000) 5000
  if |clamped| < 1 / 1000000000 then 0
  else clampVal ((clamped / 500) * (if clamped < 0 then 1.12 else 1)) (-3.2) 3.2

theorem biasVoltageToOffset_zero : biasVoltageToOffset 0 = 0 := by
  unfold biasVoltageToOffset clampVal
  norm_num

theorem localRegionOffset_nil (g : GridModel) (k j : Nat) :
    localRegionOffset g [] k j = 0 := by
  unfold localRegionOffset
  cases g.tagMask <;> simp

theorem foldl_max_init_le (l : List ℝ) (a : ℝ) : a ≤ l.foldl max a := by
  induction l generalizing a with
  | nil => exact le_refl a
  | cons y ys ih => exact le_trans (le_max_left a y) (ih (max a y))

theorem foldl_max_mem_le (l : List ℝ) (a x : ℝ) (hx : x ∈ l) :
    x ≤ l.foldl max a := by
  induction l generalizing a with
  | nil => cases hx
  | cons y ys ih =>
    rcases List.mem_cons.mp hx with h | h
    · subst h
      exact le_trans (le_max_right a x) (foldl_max_init_le ys (max a x))
    · exact ih (max a y) h

theorem foldl_max_le_of_le (l : List ℝ) (a b : ℝ) (ha : a ≤ b)
    (h : ∀ x ∈ l, x ≤ b) : l.foldl max a ≤ b := by
  induction l generalizing a with
  | nil => exact ha
  | cons y ys ih =>
    rw [List.foldl_cons]
    exact ih (max a y) (max_le ha (h y (by simp)))
      (fun x hx => h x (by simp [hx]))

theorem sqrt_amp_phase (a c s : ℝ) (ha : 0 ≤ a) (hcs : c ^ 2 + s ^ 2 = 1) :
    Real.sqrt ((a * c) ^ 2 + (a * s) ^ 2) = a := by
  rw [show (a * c) ^ 2 + (a * s) ^ 2 = a ^ 2 * (c ^ 2 + s ^ 2) by ring, hcs,
    mul_one, Real.sqrt_sq ha]

theorem mem_poweredCells (g : GridModel) (k j : Nat) (hk : k < g.nz)
    (hj : j < g.nr) (hreg : g.regionType k j = RegionType.powered_electrode) :
    (k, j) ∈ poweredCells g := by
  unfold poweredCells
  rw [List.mem_flatMap]
  refine ⟨k, List.mem_range.mpr hk, ?_⟩
  rw [List.mem_filterMap]
  exact ⟨j, List.mem_range.mpr hj, by simp [hreg]⟩

theorem le_maxDriveVal (g : GridModel) (comps : List BoundaryComponent)
    (pv : ℝ) (k j : Nat) (hmem : (k, j) ∈ poweredCells g) :
    poweredCellDrive g comps pv k j ≤ maxDriveVal g comps pv := by
  unfold maxDriveVal
  have hmem2 : poweredCellDrive g comps pv k j ∈
      (poweredCells g).map (fun c => poweredCellDrive g comps pv c.1 c.2) :=
    List.mem_map_of_mem _ hmem
  cases hl : (poweredCells g).map (fun c => poweredCellDrive g comps pv c.1 c.2) with
  | nil => rw [hl] at hmem2; cases hmem2
  | cons h t =>
    rw [hl] at hmem2
    rcases List.mem_cons.mp hmem2 with he | he
    · rw [he]
      exact foldl_max_init_le t h
    · exact foldl_max_mem_le t h _ he

/-- With a single positive-power source the normalized component is just
the phase phasor: `sqrt(p) / sqrt(p) = 1`. -/
theorem buildComponents_single (tag : Option String) (p c s : ℝ) (hp : 0 < p) :
    buildBoundaryDriveComponents [⟨tag, p, c, s⟩] = [⟨tag, c, s⟩] := by
  unfold buildBoundaryDriveComponents
  have hsq : Real.sqrt p ≠ 0 := ne_of_gt (Real.sqrt_pos.mpr hp)
  simp [hp, div_self hsq]

/-- With a single unit-magnitude component every cell's raw drive is 1,
whether or not the cell matches the component's tag (the source falls
back to the full component list when nothing matches). -/
theorem poweredCellDrive_single (g : GridModel) (tag : Option String)
    (c s pv : ℝ) (hcs : c ^ 2 + s ^ 2 = 1) (k j : Nat) :
    poweredCellDrive g [⟨tag, c, s⟩] pv k j = 1 := by
  have h1 : Real.sqrt (c ^ 2 + s ^ 2) = 1 := by rw [hcs]; exact Real.sqrt_one
  unfold poweredCellDrive
  by_cases hm : cellMatchesSourceTag g.tagMask k j tag = true
  · simp [hm, h1]
  · have hm' : cellMatchesSourceTag g.tagMask k j tag = false := by
      simpa using hm
    cases tag with
    | none => simp [cellMatchesSourceTag] at hm'
    | some t => simp [hm', h1]

theorem maxDriveVal_single (g : GridModel) (tag : Option String)
    (c s pv : ℝ) (hcs : c ^ 2 + s ^ 2 = 1) (hne : poweredCells g ≠ []) :
    maxDriveVal g [⟨tag, c, s⟩] pv = 1 := by
  unfold maxDriveVal
  cases hl : (poweredCells g).map
      (fun cell => poweredCellDrive g [⟨tag, c, s⟩] pv cell.1 cell.2) with
  | nil => exact absurd (List.map_eq_nil_iff.mp hl) hne
  | cons h t =>
    have hall : ∀ x ∈ (poweredCells g).map
        (fun cell => poweredCellDrive g [⟨tag, c, s⟩] pv cell.1 cell.2), x = 1 := by
      intro x hx
      rcases List.mem_map.mp hx with ⟨cell, _, hcell⟩
      rw [← hcell, poweredCellDrive_single g tag c s pv hcs]
    have hh : h = 1 := hall h (by rw [hl]; simp)
    have hle : t.foldl max h ≤ 1 :=
      foldl_max_le_of_le t h 1 (le_of_eq hh)
        (fun x hx => le_of_eq (hall x (by rw [hl]; simp [hx])))
    have hge : h ≤ t.foldl max h := foldl_max_init_le t h
    exact le_antisymm hle (by rw [← hh]; exact hge)

/-- C4: with exactly one RF drive source of positive power, zero global
DC bias and no DC-bias regions, every powered-electrode cell receives the
same Dirichlet value, equal to the requested `powered_voltage`. -/
theorem C4_single_source_uniform_powered_voltage (g : GridModel)
    (tag : Option String) (p c s pv : ℝ) (k j : Nat)
    (hp : 0 < p) (hcs : c ^ 2 + s ^ 2 = 1)
    (hk : k < g.nz) (hj : j < g.nr)
    (hreg : g.regionType k j = RegionType.powered_electrode) :
    dirichletValue g (buildBoundaryDriveComponents [⟨tag, p, c, s⟩]) pv
      (biasVoltageToOffset 0) [] k j = pv := by
  rw [buildComponents_single tag p c s hp]
  have hne : poweredCells g ≠ [] := by
    intro h0
    have hmem := mem_poweredCells g k j hk hj hreg
    rw [h0] at hmem
    cases hmem
  unfold dirichletValue
  rw [hreg]
  simp only [maxDriveVal_single g tag c s pv hcs hne,
    poweredCellDrive_single g tag c s pv hcs,
    biasVoltageToOffset_zero, localRegionOffset_nil]
  norm_num

/-- Witness for C4: a 1x1 powered-electrode grid, one untagged source of
power 1 and phase 0, requested voltage 2. -/
theorem C4_single_source_uniform_powered_voltage_witness :
    dirichletValue ⟨1, 1, fun _ _ => RegionType.powered_electrode, none⟩
      (buildBoundaryDriveComponents [⟨none, 1, 1, 0⟩]) 2
      (biasVoltageToOffset 0) [] 0 0 = 2 :=
  C4_single_source_uniform_powered_voltage
    ⟨1, 1, fun _ _ => RegionType.powered_electrode, none⟩
    none 1 1 0 2 0 0 (by norm_num) (by norm_num)
    (by decide) (by decide) rfl

/-- With two positive-power sources the normalized components carry
amplitudes `sqrt(p_i) / sqrt(p1 + p2)`. -/
theorem buildComponents_pair (t1 t2 : Option String) (p1 p2 c1 s1 c2 s2 : ℝ)
    (h1 : 0 < p1) (h2 : 0 < p2) :
    buildBoundaryDriveComponents [⟨t1, p1, c1, s1⟩, ⟨t2, p2, c2, s2⟩] =
      [⟨t1, Real.sqrt p1 / Real.sqrt (p1 + p2) * c1,
           Real.sqrt p1 / Real.sqrt (p1 + p2) * s1⟩,
       ⟨t2, Real.sqrt p2 / Real.sqrt (p1 + p2) * c2,
           Real.sqrt p2 / Real.sqrt (p1 + p2) * s2⟩] := by
  unfold buildBoundaryDriveComponents
  have hT : (0 : ℝ) < p1 + p2 := by linarith
  simp [h1, h2, hT, add_assoc]

/-- At a cell covered only by the first source's tag, the drive is the
magnitude of the first component alone. -/
theorem poweredCellDrive_first_only (g : GridModel)
    (masks : String → Option (Nat → Nat → Bool)) (t1 t2 : String)
    (m1 m2 : Nat → Nat → Bool) (r1 i1 r2 i2 pv : ℝ) (k j : Nat)
    (hgm : g.tagMask = some masks)
    (hm1 : masks t1 = some m1) (hm2 : masks t2 = some m2)
    (hc1 : m1 k j = true) (hc2 : m2 k j = false) :
    poweredCellDrive g [⟨some t1, r1, i1⟩, ⟨some t2, r2, i2⟩] pv k j =
      Real.sqrt (r1 ^ 2 + i1 ^ 2) := by
  unfold poweredCellDrive
  simp [cellMatchesSourceTag, hgm, hm1, hm2, hc1, hc2]

/-- At a cell covered only by the second source's tag, the drive is the
magnitude of the second component alone. -/
theorem poweredCellDrive_second_only (g : GridModel)
    (masks : String → Option (Nat → Nat → Bool)) (t1 t2 : String)
    (m1 m2 : Nat → Nat → Bool) (r1 i1 r2 i2 pv : ℝ) (k j : Nat)
    (hgm : g.tagMask = some masks)
    (hm1 : masks t1 = some m1) (hm2 : masks t2 = some m2)
    (hc1 : m1 k j = false) (hc2 : m2 k j = true) :
    poweredCellDrive g [⟨some t1, r1, i1⟩, ⟨some t2, r2, i2⟩] pv k j =
      Real.sqrt (r2 ^ 2 + i2 ^ 2) := by
  unfold poweredCellDrive
  simp [cellMatchesSourceTag, hgm, hm1, hm2, hc1, hc2]

/-- C8: with two RF sources of distinct positive powers targeting
disjoint tag masks, a powered-electrode cell covered only by the
higher-power source's tag receives a strictly greater Dirichlet drive
than a powered-electrode cell covered only by the lower-power source's
tag (for any positive requested voltage and any global DC offset, with no
DC-bias regions). -/
theorem C8_higher_power_tag_greater_drive (g : GridModel)
    (masks : String → Option (Nat → Nat → Bool)) (tHi tLo : String)
    (mHi mLo : Nat → Nat → Bool) (pHi pLo c1 s1 c2 s2 pv dcOffset : ℝ)
    (kA jA kB jB : Nat)
    (hgm : g.tagMask = some masks)
    (hmHi : masks tHi = some mHi) (hmLo : masks tLo = some mLo)
    (hpLo : 0 < pLo) (hlt : pLo < pHi)
    (hc1 : c1 ^ 2 + s1 ^ 2 = 1) (hc2 : c2 ^ 2 + s2 ^ 2 = 1)
    (hA1 : mHi kA jA = true) (hA2 : mLo kA jA = false)
    (hB1 : mHi kB jB = false) (hB2 : mLo kB jB = true)
    (hkA : kA < g.nz) (hjA : jA < g.nr) (hkB : kB < g.nz) (hjB : jB < g.nr)
    (hregA : g.regionType kA jA = RegionType.powered_electrode)
    (hregB : g.regionType kB jB = RegionType.powered_electrode)
    (hpv : 0 < pv) :
    dirichletValue g
        (buildBoundaryDriveComponents
          [⟨some tHi, pHi, c1, s1⟩, ⟨some tLo, pLo, c2, s2⟩]) pv dcOffset []
        kB jB <
    dirichletValue g
        (buildBoundaryDriveComponents
          [⟨some tHi, pHi, c1, s1⟩, ⟨some tLo, pLo, c2, s2⟩]) pv dcOffset []
        kA jA := by
  have hpHi : 0 < pHi := lt_trans hpLo hlt
  have hT : (0 : ℝ) < pHi + pLo := by linarith
  have hsT : 0 < Real.sqrt (pHi + pLo) := Real.sqrt_pos.mpr hT
  set aHi := Real.sqrt pHi / Real.sqrt (pHi + pLo) with haHi
  set aLo := Real.sqrt pLo / Real.sqrt (pHi + pLo) with haLo
  have haHi0 : 0 ≤ aHi := div_nonneg (Real.sqrt_nonneg _) (le_of_lt hsT)
  have haLo0 : 0 ≤ aLo := div_nonneg (Real.sqrt_nonneg _) (le_of_lt hsT)
  have haHipos : 0 < aHi := div_pos (Real.sqrt_pos.mpr hpHi) hsT
  have horder : aLo < aHi := by
    rw [haHi, haLo, div_lt_div_iff_of_pos_right hsT]
    exact Real.sqrt_lt_sqrt (le_of_lt hpLo) hlt
  rw [buildComponents_pair (some tHi) (some tLo) pHi pLo c1 s1 c2 s2 hpHi hpLo]
  have hdriveA : poweredCellDrive g
      [⟨some tHi, aHi * c1, aHi * s1⟩, ⟨some tLo, aLo * c2, aLo * s2⟩] pv kA jA =
      aHi := by
    rw [poweredCellDrive_first_only g masks tHi tLo mHi mLo _ _ _ _ pv kA jA
      hgm hmHi hmLo hA1 hA2]
    exact sqrt_amp_phase aHi c1 s1 haHi0 hc1
  have hdriveB : poweredCellDrive g
      [⟨some tHi, aHi * c1, aHi * s1⟩, ⟨some tLo, aLo * c2, aLo * s2⟩] pv kB jB =
      aLo := by
    rw [poweredCellDrive_second_only g masks tHi tLo mHi mLo _ _ _ _ pv kB jB
      hgm hmHi hmLo hB1 hB2]
    exact sqrt_amp_phase aLo c2 s2 haLo0 hc2
  have hmd : aHi ≤ maxDriveVal g
      [⟨some tHi, aHi * c1, aHi * s1⟩, ⟨some tLo, aLo * c2, aLo * s2⟩] pv := by
    have hmd0 := le_maxDriveVal g
        [⟨some tHi, aHi * c1, aHi * s1⟩, ⟨some tLo, aLo * c2, aLo * s2⟩] pv kA jA
        (mem_poweredCells g kA jA hkA hjA hregA)
    rw [hdriveA] at hmd0
    exact hmd0
  have hmdpos : 0 < maxDriveVal g
      [⟨some tHi, aHi * c1, aHi * s1⟩, ⟨some tLo, aLo * c2, aLo * s2⟩] pv :=
    lt_of_lt_of_le haHipos hmd
  have hscale : 0 < pv / maxDriveVal g
      [⟨some tHi, aHi * c1, aHi * s1⟩, ⟨some tLo, aLo * c2, aLo * s2⟩] pv :=
    div_pos hpv hmdpos
  unfold dirichletValue
  rw [hregA, hregB]
  simp only [hdriveA, hdriveB, localRegionOffset_nil, if_pos hmdpos]
  have := mul_lt_mul_of_pos_right horder hscale
  linarith

/-- Witness for C8: a 1x2 powered-electrode row, source powers 4 (tag hi,
covering column 0) and 1 (tag lo, covering column 1), voltage 1, no DC
offset. -/
theorem C8_higher_power_tag_greater_drive_witness :
    dirichletValue
        ⟨1, 2, fun _ _ => RegionType.powered_electrode,
         some fun t => if t = "hi" then some (fun _ j => j = 0)
           else if t = "lo" then some (fun _ j => j = 1) else none⟩
        (buildBoundaryDriveComponents
          [⟨some "hi", 4, 1, 0⟩, ⟨some "lo", 1, 1, 0⟩]) 1 0 [] 0 1 <
    dirichletValue
        ⟨1, 2, fun _ _ => RegionType.powered_electrode,
         some fun t => if t = "hi" then some (fun _ j => j = 0)
           else if t = "lo" then some (fun _ j => j = 1) else none⟩
        (buildBoundaryDriveComponents
          [⟨some "hi", 4, 1, 0⟩, ⟨some "lo", 1, 1, 0⟩]) 1 0 [] 0 0 :=
  C8_higher_power_tag_greater_drive
    ⟨1, 2, fun _ _ => RegionType.powered_electrode,
     some fun t => if t = "hi" then some (fun _ j => j = 0)
       else if t = "lo" then some (fun _ j => j = 1) else none⟩
    (fun t => if t = "hi" then some (fun _ j => j = 0)
       else if t = "lo" then some (fun _ j => j = 1) else none)
    "hi" "lo" (fun _ j => j = 0) (fun _ j => j = 1)
    4 1 1 0 1 0 1 0 0 0 0 1
    rfl (by simp) (by simp) (by norm_num) (by norm_num)
    (by norm_num) (by norm_num)
    (by decide) (by decide) (by decide) (by decide)
    (by decide) (by decide) (by decide) (by decide)
    rfl rfl (by norm_num)

/-! ## Pump outlets and the effective bulk-loss coefficient
(`_effective_outlet_strength`, `_build_outlet_strength_map`,
`solve_ne_drift_diffusion_sg` lines 1762-1777)

The non-pump contributions to the effective bulk loss (`bulk_loss`,
`flow_residence_loss`, `wall_quench_loss`) and the three gains
(`attachment_bulk_gain`, `dc_loss_gain`, `inlet_direction_loss_gain`) are
per-request constants independent of the pump configuration; they enter
as parameters. -/

/-- One pump outlet (`surface_tag` already stripped; `None` optional
fields take the documented defaults). -/
structure OutletModel where
  surfaceTag : String
  strength : ℝ
  throttlePercent : Option ℝ
  conductanceLps : Option ℝ
  targetPressurePa : Option ℝ

/-- `_effective_outlet_strength`: raw strength floored at zero, scaled by
the throttle fraction, a clamped square-root conductance factor relative
to the 220 L/s reference, and a clamped square-root pressure factor
relative to the 8 Pa reference (`x ** 0.5` on the non-negative operands
is `sqrt`). -/
noncomputable def effectiveOutletStrength (o : OutletModel) : ℝ :=
  let rawStrength := max o.strength 0
  let throttle :=
    match o.throttlePercent with
    | some t => max t 0 / 100
    | none => 1
  let conductance :=
    match o.conductanceLps with
    | some c => max c 0
    | none => 220
  let targetPressure :=
    match o.targetPressurePa with
    | some tp => max tp 0.2
    | none => 8
  let conductanceFactor := clampVal (Real.sqrt (conductance / 220)) 0.3 2.2
  let pressureFactor := clampVal (Real.sqrt (8 / targetPressure)) 0.35 2.4
  rawStrength * throttle * conductanceFactor * pressureFactor

/-- `total_strength` of `_build_outlet_strength_map`: outlets with an
empty tag or a non-positive effective strength are skipped. -/
noncomputable def totalPumpStrength (outlets : List OutletModel) : ℝ :=
  (outlets.map fun o =>
    if o.surfaceTag = "" then 0
    else if effectiveOutletStrength o ≤ 0 then 0
    else effectiveOutletStrength o).sum

/-- `pump_bulk_loss = _clamp(0.018 * total_pump_strength, 0.0, 0.16)`. -/
noncomputable def pumpBulkLoss (totalPump : ℝ) : ℝ :=
  clampVal (0.018 * totalPump) 0 0.16

/-- `effective_bulk_loss` as reported in the solver metadata
(`bulk_loss=effective_bulk_loss`): the summed loss terms scaled by the
three gains, clamped to `[0.003, 0.34]`. -/
noncomputable def effectiveBulkLoss (bulkLoss flowResidenceLoss wallQuenchLoss
    attachmentBulkGain dcLossGain inletDirectionLossGain totalPump : ℝ) : ℝ :=
  clampVal
    ((bulkLoss + pumpBulkLoss totalPump + flowResidenceLoss + wallQuenchLoss)
      * attachmentBulkGain * dcLossGain * inletDirectionLossGain)
    0.003 0.34

theorem clampVal_mono {a b lo hi : ℝ} (h : a ≤ b) :
    clampVal a lo hi ≤ clampVal b lo hi :=
  max_le_max (le_refl lo) (min_le_min (le_refl hi) h)

theorem clampVal_nonneg {a lo hi : ℝ} (h : 0 ≤ lo) :
    0 ≤ clampVal a lo hi :=
  le_trans h (le_max_left lo _)

theorem effectiveOutletStrength_mono (tag : String) (s1 s2 : ℝ)
    (thr : Option ℝ) (c1 c2 : ℝ) (tp : Option ℝ)
    (hs : s1 ≤ s2) (hc : c1 ≤ c2) :
    effectiveOutletStrength ⟨tag, s1, thr, some c1, tp⟩ ≤
      effectiveOutletStrength ⟨tag, s2, thr, some c2, tp⟩ := by
  unfold effectiveOutletStrength
  have hraw : max s1 0 ≤ max s2 0 := max_le_max hs (le_refl 0)
  have hcond : max c1 0 / 220 ≤ max c2 0 / 220 := by
    apply div_le_div_of_nonneg_right (max_le_max hc (le_refl 0))
    norm_num
  have hfac : clampVal (Real.sqrt (max c1 0 / 220)) 0.3 2.2 ≤
      clampVal (Real.sqrt (max c2 0 / 220)) 0.3 2.2 :=
    clampVal_mono (Real.sqrt_le_sqrt hcond)
  have hthr : (0 : ℝ) ≤ (match thr with
      | some t => max t 0 / 100
      | none => 1) := by
    cases thr with
    | none => norm_num
    | some t => positivity
  have hpf : (0 : ℝ) ≤ clampVal
      (Real.sqrt (8 / (match tp with
        | some v => max v 0.2
        | none => 8))) 0.35 2.4 :=
    clampVal_nonneg (by norm_num)
  have hfac1 : (0 : ℝ) ≤ clampVal (Real.sqrt (max c1 0 / 220)) 0.3 2.2 :=
    clampVal_nonneg (by norm_num)
  have hr0 : (0 : ℝ) ≤ max s1 0 := le_max_right s1 0
  apply mul_le_mul_of_nonneg_right _ hpf
  apply mul_le_mul (mul_le_mul hraw (le_refl _) hthr (le_max_right s2 0)) hfac
    hfac1
  positivity

theorem strengthTerm_mono (o1 o2 : OutletModel)
    (htag : o1.surfaceTag = o2.surfaceTag)
    (heff : effectiveOutletStrength o1 ≤ effectiveOutletStrength o2) :
    (if o1.surfaceTag = "" then 0
     else if effectiveOutletStrength o1 ≤ 0 then 0
     else effectiveOutletStrength o1) ≤
    (if o2.surfaceTag = "" then 0
     else if effectiveOutletStrength o2 ≤ 0 then 0
     else effectiveOutletStrength o2) := by
  rw [htag]
  by_cases h0 : o2.surfaceTag = ""
  · simp [h0]
  · simp only [h0, if_false]
    by_cases h1 : effectiveOutletStrength o1 ≤ 0 <;>
      by_cases h2 : effectiveOutletStrength o2 ≤ 0 <;>
      simp [h1, h2] <;> linarith

/-- C7 counterexample: strictly greater pump outlet strength does not
strictly increase the reported bulk-loss coefficient.  With a single
default-options outlet, raising the strength from 10 to 20 leaves
`pump_bulk_loss` pinned at its 0.16 clamp and the reported
`effective_bulk_loss` identical. -/
theorem C7_bulk_loss_clamp_counterexample :
    totalPumpStrength [⟨"pump", 10, none, none, none⟩] <
      totalPumpStrength [⟨"pump", 20, none, none, none⟩] ∧
    effectiveBulkLoss (1 / 200) 0 0 1 1 1
        (totalPumpStrength [⟨"pump", 20, none, none, none⟩]) =
      effectiveBulkLoss (1 / 200) 0 0 1 1 1
        (totalPumpStrength [⟨"pump", 10, none, none, none⟩]) := by
  have h10 : totalPumpStrength [⟨"pump", 10, none, none, none⟩] = 10 := by
    unfold totalPumpStrength effectiveOutletStrength clampVal
    norm_num [Real.sqrt_one, min_def, max_def]
    decide
  have h20 : totalPumpStrength [⟨"pump", 20, none, none, none⟩] = 20 := by
    unfold totalPumpStrength effectiveOutletStrength clampVal
    norm_num [Real.sqrt_one, min_def, max_def]
    decide
  rw [h10, h20]
  constructor
  · norm_num
  · unfold effectiveBulkLoss pumpBulkLoss clampVal
    norm_num [min_def, max_def]

/-- C7 amended: increasing the pump outlet strength or the pump
conductance (all else equal) weakly increases the reported effective
bulk-loss coefficient; the increase is not always strict because the
conductance factor, `pump_bulk_loss` and the final bulk-loss value are
clamped (`[0.3, 2.2]`, `[0, 0.16]` and `[0.003, 0.34]`). -/
theorem C7_bulk_loss_monotone_in_pump (tag : String) (s1 s2 : ℝ)
    (thr : Option ℝ) (c1 c2 : ℝ) (tp : Option ℝ)
    (bulkLoss flowLoss wallLoss attGain dcGain inletGain : ℝ)
    (hs : s1 ≤ s2) (hc : c1 ≤ c2)
    (hatt : 0 ≤ attGain) (hdc : 0 ≤ dcGain) (hinlet : 0 ≤ inletGain) :
    effectiveBulkLoss bulkLoss flowLoss wallLoss attGain dcGain inletGain
        (totalPumpStrength [⟨tag, s1, thr, some c1, tp⟩]) ≤
      effectiveBulkLoss bulkLoss flowLoss wallLoss attGain dcGain inletGain
        (totalPumpStrength [⟨tag, s2, thr, some c2, tp⟩]) := by
  have heff := effectiveOutletStrength_mono tag s1 s2 thr c1 c2 tp hs hc
  have hterm := strengthTerm_mono ⟨tag, s1, thr, some c1, tp⟩
    ⟨tag, s2, thr, some c2, tp⟩ rfl heff
  have htot : totalPumpStrength [⟨tag, s1, thr, some c1, tp⟩] ≤
      totalPumpStrength [⟨tag, s2, thr, some c2, tp⟩] := by
    unfold totalPumpStrength
    simpa using hterm
  have hpump : pumpBulkLoss (totalPumpStrength [⟨tag, s1, thr, some c1, tp⟩]) ≤
      pumpBulkLoss (totalPumpStrength [⟨tag, s2, thr, some c2, tp⟩]) :=
    clampVal_mono (by linarith)
  unfold effectiveBulkLoss
  apply clampVal_mono
  apply mul_le_mul_of_nonneg_right _ hinlet
  apply mul_le_mul_of_nonneg_right _ hdc
  apply mul_le_mul_of_nonneg_right _ hatt
  linarith

/-- Witness for C7 comparing strengths 1 and 2 at the reference
conductance 220 L/s. -/
theorem C7_bulk_loss_monotone_in_pump_witness :
    effectiveBulkLoss (1 / 200) 0 0 1 1 1
        (totalPumpStrength [⟨"pump", 1, some 100, some 220, some 8⟩]) ≤
      effectiveBulkLoss (1 / 200) 0 0 1 1 1
        (totalPumpStrength [⟨"pump", 2, some 100, some 220, some 8⟩]) :=
  C7_bulk_loss_monotone_in_pump "pump" 1 2 (some 100) 220 220 (some 8)
    (1 / 200) 0 0 1 1 1 (by norm_num) (by norm_num)
    (by norm_num) (by norm_num) (by norm_num)

/-! ## The Scharfetter-Gummel Bernoulli helper (`_bernoulli`) -/

/-- `_bernoulli(x)`: series expansion near zero, zero / linear asymptotic
branches at large magnitude, and `x / (exp(x) - 1)` otherwise. -/
noncomputable def bernoulli (x : ℝ) : ℝ :=
  if |x| < 1 / 1000000 then 1 - 0.5 * x + x * x / 12
  else if x > 50 then 0
  else if x < -50 then -x
  else x / (Real.exp x - 1)

/-- C10: `_bernoulli` is non-negative on every input: it returns the
series `1 - x/2 + x^2/12` for `|x| < 1e-6`, exactly `0` for `x > 50`,
exactly `-x` for `x < -50`, and the strictly positive `x / (e^x - 1)`
otherwise; consequently every face coefficient `coef * _bernoulli(..)`
added to the drift-diffusion diagonal with `coef >= 0` is non-negative. -/
theorem C10_bernoulli_nonneg (x coef : ℝ) (hcoef : 0 ≤ coef) :
    0 ≤ bernoulli x ∧
    (|x| < 1 / 1000000 → bernoulli x = 1 - 0.5 * x + x * x / 12) ∧
    (x > 50 → bernoulli x = 0) ∧
    (x < -50 → bernoulli x = -x) ∧
    (1 / 1000000 ≤ |x| → -50 ≤ x → x ≤ 50 →
      bernoulli x = x / (Real.exp x - 1) ∧ 0 < bernoulli x) ∧
    0 ≤ coef * bernoulli x := by
  have hnonneg : 0 ≤ bernoulli x := by
    unfold bernoulli
    by_cases h1 : |x| < 1 / 1000000
    · rw [if_pos h1]
      rcases abs_lt.mp h1 with ⟨hlo, hhi⟩
      nlinarith [sq_nonneg x]
    · rw [if_neg h1]
      by_cases h2 : x > 50
      · rw [if_pos h2]
      · rw [if_neg h2]
        by_cases h3 : x < -50
        · rw [if_pos h3]
          linarith
        · rw [if_neg h3]
          push_neg at h1 h2 h3
          rcases lt_or_le 0 x with hx | hx
          · have hd : 0 < Real.exp x - 1 := by
              have := Real.one_lt_exp_iff.mpr hx
              linarith
            exact le_of_lt (div_pos hx hd)
          · have hxneg : x < 0 := by
              rcases lt_or_eq_of_le hx with h | h
              · exact h
              · exfalso
                rw [h] at h1
                norm_num at h1
            have hd : Real.exp x - 1 < 0 := by
              have := Real.exp_lt_one_iff.mpr hxneg
              linarith
            exact le_of_lt (div_pos_of_neg_of_neg hxneg hd)
  refine ⟨hnonneg, ?_, ?_, ?_, ?_, mul_nonneg hcoef hnonneg⟩
  · intro h1
    unfold bernoulli
    rw [if_pos h1]
  · intro h2
    have h1 : ¬ |x| < 1 / 1000000 := by
      rw [not_lt]
      calc (1 : ℝ) / 1000000 ≤ 50 := by norm_num
        _ ≤ x := le_of_lt h2
        _ ≤ |x| := le_abs_self x
    unfold bernoulli
    rw [if_neg h1, if_pos h2]
  · intro h3
    have h1 : ¬ |x| < 1 / 1000000 := by
      rw [not_lt]
      calc (1 : ℝ) / 1000000 ≤ 50 := by norm_num
        _ ≤ -x := by linarith
        _ ≤ |x| := neg_le_abs x
    have h2 : ¬ x > 50 := by linarith
    unfold bernoulli
    rw [if_neg h1, if_neg h2, if_pos h3]
  · intro h1 hlo hhi
    have h1' : ¬ |x| < 1 / 1000000 := not_lt.mpr h1
    have h2 : ¬ x > 50 := not_lt.mpr hhi
    have h3 : ¬ x < -50 := not_lt.mpr hlo
    have heq : bernoulli x = x / (Real.exp x - 1) := by
      unfold bernoulli
      rw [if_neg h1', if_neg h2, if_neg h3]
    refine ⟨heq, ?_⟩
    rw [heq]
    rcases lt_or_le 0 x with hx | hx
    · have hd : 0 < Real.exp x - 1 := by
        have := Real.one_lt_exp_iff.mpr hx
        linarith
      exact div_pos hx hd
    · have hxneg : x < 0 := by
        rcases lt_or_eq_of_le hx with h | h
        · exact h
        · exfalso
          rw [h] at h1
          norm_num at h1
      have hd : Real.exp x - 1 < 0 := by
        have := Real.exp_lt_one_iff.mpr hxneg
        linarith
      exact div_pos_of_neg_of_neg hxneg hd

/-- Witness for C10 at `x = 100`, `coef = 2`. -/
theorem C10_bernoulli_nonneg_witness :
    0 ≤ bernoulli 100 ∧ bernoulli 100 = 0 ∧ 0 ≤ 2 * bernoulli 100 :=
  ⟨(C10_bernoulli_nonneg 100 2 (by norm_num)).1,
   (C10_bernoulli_nonneg 100 2 (by norm_num)).2.2.1 (by norm_num),
   (C10_bernoulli_nonneg 100 2 (by norm_num)).2.2.2.2.2⟩

end PoissonV1
